import Mathlib

/-!
Verification development for the aegis-sign parent-host gateway.

Shallow embedding of the subsystems named by the specification:
the key-cache entry state machine (`internal/app/backend/keycache/entry.go`),
the circuit breaker (`internal/infra/enclaveclient/circuitbreaker.go`),
the enclave connection pool's drain/register/acquire gate and lease release
(`internal/infra/enclaveclient`, pool file), the sticky selector
(`internal/api`, enclave backend file), the unlock dispatcher's
`NotifyUnlock` (`internal/gateway/unlock`, dispatcher file) and the digest
codec (`pkg/validator/digest.go`).

Machine integers are modelled as `Nat` (with explicit bounds where overflow
matters), absolute times as `Nat` instants, `time.Duration` as `Nat`, and
fallible Go functions as `Option`/`Except`-returning Lean functions.
-/

namespace AegisSign

namespace KeyCache

/-- Model of `State` from `state.go`: WARM / COOL / INVALID. -/
inductive EState where
  | warm
  | cool
  | invalid
deriving DecidableEq, Repr

/-- An `apierrors.Error` value: a code string plus the message. -/
structure Err where
  code : String
  reason : String
deriving DecidableEq, Repr

/-- Model of `apierrors.New(apierrors.CodeUnlockRequired, reason)`. -/
def unlockRequired (reason : String) : Err :=
  ⟨"UNLOCK_REQUIRED", reason⟩

/-- Mutable state plus configuration of a key-cache `Entry` (entry.go).
Bytes are `Nat`s below 256; the 32-byte plaintext slot is a `List Nat`. -/
structure Entry where
  keyID : String
  keyspace : String
  priv32 : List Nat
  hasPlainKey : Bool
  usesLeft : Nat
  softTTL : Nat
  hardTTL : Nat
  dekValidUntil : Nat
  state : EState
  maxUses : Nat
  lowWater : Nat
  softWindow : Nat
  hardWindow : Nat
deriving DecidableEq, Repr

/-- The all-zero 32-byte plaintext slot. -/
def zeros32 : List Nat := List.replicate 32 0

/-- Model of `Entry.clearPlainLocked`: secure-zero the slot, drop the flag and the
use budget. -/
def clearPlain (e : Entry) : Entry :=
  { e with priv32 := zeros32, hasPlainKey := false, usesLeft := 0 }

/-- Model of `Entry.toCoolLocked`: idempotent transition into COOL. -/
def toCool (e : Entry) : Entry :=
  if e.state = EState.cool then e
  else { clearPlain e with state := EState.cool }

/-- Model of `Entry.toInvalidLocked`: idempotent transition into INVALID. -/
def toInvalid (e : Entry) : Entry :=
  if e.state = EState.invalid then e
  else { clearPlain e with state := EState.invalid }

/-- Model of `Entry.ensureValidLocked(now)`: DEK expiry forces INVALID and fails with
"dek expired"; an already-INVALID entry fails with "key invalid". -/
def ensureValid (e : Entry) (now : Nat) : Entry × Option Err :=
  if e.dekValidUntil < now then (toInvalid e, some (unlockRequired "dek expired"))
  else if e.state = EState.invalid then (e, some (unlockRequired "key invalid"))
  else (e, none)

/-- The refresh condition of `Entry.Checkout` / `needCool` of
`Entry.refreshOnce`: `!hasPlainKey || now.After(hardTTL) || usesLeft == 0`. -/
def needRefresh (e : Entry) (now : Nat) : Bool :=
  !e.hasPlainKey || decide (e.hardTTL < now) || decide (e.usesLeft = 0)

/-- The early-return condition of `Entry.refreshOnce`:
`!needCool && now.Before(softTTL) && usesLeft > 0`. -/
def freshEnough (e : Entry) (now : Nat) : Bool :=
  !needRefresh e now && decide (now < e.softTTL) && decide (0 < e.usesLeft)

/-- The success branch of `Entry.rehydrateLocked`: install the plaintext,
reset the use budget, advance both TTLs from `now`, become WARM. -/
def rehydrateOk (e : Entry) (now : Nat) (plain : List Nat) : Entry :=
  { e with
    priv32 := plain
    hasPlainKey := true
    usesLeft := e.maxUses
    softTTL := now + e.softWindow
    hardTTL := now + e.hardWindow
    state := EState.warm }

/-- Model of `Entry.rehydrateLocked`: the injected rehydrator's outcome is the
oracle `rh` (`none` = error or sub-timeout, `some plain` = success). -/
def rehydrateStep (e : Entry) (now : Nat) (rh : Option (List Nat)) :
    Entry × Option Err :=
  match rh with
  | none => (toInvalid e, some (unlockRequired "rehydrate failed"))
  | some plain => (rehydrateOk e now plain, none)

/-- Model of `Entry.refreshOnce(ctx)`. The `Bool` component records whether the
rehydrator was actually invoked. -/
def refreshOnce (e : Entry) (now : Nat) (rh : Option (List Nat)) :
    Entry × Option Err × Bool :=
  match ensureValid e now with
  | (e1, some err) => (e1, some err, false)
  | (e1, none) =>
    if freshEnough e1 now then (e1, none, false)
    else
      let e2 := if needRefresh e1 now then toCool e1 else e1
      match rehydrateStep e2 now rh with
      | (e3, err?) => (e3, err?, true)

/-- Outcome of one pass through the refresh arm of `Entry.Checkout`:
either the coalesced wait hit the `refreshBudget` context deadline
(`timeout`) or `refreshOnce` ran, at clock reading `nowR`, with rehydrator
outcome `rh`. -/
inductive RefreshInput where
  | timeout
  | run (nowR : Nat) (rh : Option (List Nat))
deriving DecidableEq, Repr

/-- Result of `Entry.Checkout`: a successful `CheckoutResult` carrying the
plaintext copy, a taxonomized error, or `stalled` when the supplied
iteration trace ran out before the loop reached a decisive outcome. -/
inductive COut where
  | ok (plain : List Nat)
  | failed (err : Err)
  | stalled
deriving DecidableEq, Repr

/-- Model of `Entry.Checkout(ctx)`. Each loop iteration consumes one trace element
`(now, ri)`: `now` is the clock reading taken under the lock, `ri` resolves
the refresh arm when it is taken. The background `refresher.Go` of step 4
runs `refreshOnce` asynchronously and is covered by the `refreshOnce`
theorems. -/
def checkout (e : Entry) : List (Nat × RefreshInput) → Entry × COut
  | [] => (e, COut.stalled)
  | (now, ri) :: rest =>
    match ensureValid e now with
    | (e1, some err) => (e1, COut.failed err)
    | (e1, none) =>
      if needRefresh e1 now then
        match ri with
        | RefreshInput.timeout => (e1, COut.failed (unlockRequired "refresh timeout"))
        | RefreshInput.run nowR rh =>
          match refreshOnce e1 nowR rh with
          | (e2, some err, _) => (e2, COut.failed err)
          | (e2, none, _) => checkout e2 rest
      else
        ({ e1 with usesLeft := e1.usesLeft - 1 }, COut.ok e1.priv32)

/-- A sequence of `Checkout` calls, each with its own iteration trace. -/
def checkoutSeq (e : Entry) : List (List (Nat × RefreshInput)) → Entry × List COut
  | [] => (e, [])
  | t :: ts =>
    match checkout e t with
    | (e1, o) =>
      match checkoutSeq e1 ts with
      | (e2, os) => (e2, o :: os)

/-- Model of `EntryConfig` (entry.go), with times already absolute `Nat` instants. -/
structure EntryConfig where
  keyID : String
  enclave : String
  keyspace : String
  plainKey : List Nat
  hasPlainKey : Bool
  usesLeft : Nat
  maxUses : Nat
  lowWaterMark : Nat
  plainSoftTTL : Nat
  plainHardTTL : Nat
  dekValidFor : Nat
  createdAt : Nat
deriving DecidableEq, Repr

/-- Model of `NewEntry(cfg)`: config normalization and initial state, mirroring
entry.go. Go's `<= 0` guards on durations/counters become `= 0` on `Nat`.
A non-zero `createdAt` stands for the supplied `CreatedAt` (zero means
"use the clock", which we also pass through as instant 0). -/
def newEntry (cfg : EntryConfig) : Option Entry :=
  if cfg.keyID = "" ∨ cfg.enclave = "" ∨ cfg.keyspace = "" then none
  else
    let softW := if cfg.plainSoftTTL = 0 then 900000 else cfg.plainSoftTTL
    let hardW := if cfg.plainHardTTL = 0 then 960000 else cfg.plainHardTTL
    let dekW := if cfg.dekValidFor = 0 then 3600000 else cfg.dekValidFor
    let maxU := if cfg.maxUses = 0 then 1000000 else cfg.maxUses
    let usesL := if cfg.usesLeft = 0 ∨ maxU < cfg.usesLeft then maxU else cfg.usesLeft
    let lowW := if cfg.lowWaterMark = 0 then 50000 else cfg.lowWaterMark
    let base : Entry :=
      { keyID := cfg.keyID
        keyspace := cfg.keyspace
        priv32 := zeros32
        hasPlainKey := cfg.hasPlainKey
        usesLeft := usesL
        softTTL := cfg.createdAt + softW
        hardTTL := cfg.createdAt + hardW
        dekValidUntil := cfg.createdAt + dekW
        state := EState.cool
        maxUses := maxU
        lowWater := lowW
        softWindow := softW
        hardWindow := hardW }
    if cfg.hasPlainKey then
      some { base with priv32 := cfg.plainKey, state := EState.warm }
    else
      some (clearPlain base)

/-- The invariant that actually holds at every externally observable
point: the entry is WARM exactly when the plaintext slot is populated. -/
def EntryInv (e : Entry) : Prop :=
  e.state = EState.warm ↔ e.hasPlainKey = true

instance (e : Entry) : Decidable (EntryInv e) := by
  unfold EntryInv
  infer_instance

end KeyCache

/-- Association list with string keys, standing in for a Go map with
unique keys. -/
def alistLookup {β : Type} : List (String × β) → String → Option β
  | [], _ => none
  | (k, v) :: rest, id => if k = id then some v else alistLookup rest id

/-- Replace the binding of `id` (no-op when absent). -/
def alistUpdate {β : Type} : List (String × β) → String → β → List (String × β)
  | [], _, _ => []
  | (k, v) :: rest, id, b =>
    if k = id then (k, b) :: rest else (k, v) :: alistUpdate rest id b

/-- Remove the first binding of `id` (Go `delete` on a map with unique
keys). -/
def alistErase {β : Type} : List (String × β) → String → List (String × β)
  | [], _ => []
  | (k, v) :: rest, id => if k = id then rest else (k, v) :: alistErase rest id

namespace Breaker

/-- Model of `breakerState` (circuitbreaker.go). -/
inductive BState where
  | healthy
  | degraded
  | draining
deriving DecidableEq, Repr

/-- Model of `circuitBreaker` fields, with `time.Time` as a `Nat` instant. -/
structure CB where
  threshold : Nat
  cooldown : Nat
  state : BState
  failures : Nat
  lastChange : Nat
deriving DecidableEq, Repr

/-- Model of `newCircuitBreaker(threshold, cooldown)` created at instant `now`. -/
def newCB (threshold cooldown now : Nat) : CB :=
  ⟨threshold, cooldown, BState.healthy, 0, now⟩

/-- Model of `circuitBreaker.Allow()` at instant `now`: denies only while draining;
a degraded breaker whose cooldown elapsed is reset to healthy and the
call is still permitted. -/
def allowCB (now : Nat) (cb : CB) : Bool × CB :=
  if cb.state = BState.draining then (false, cb)
  else if cb.state = BState.degraded ∧ cb.cooldown < now - cb.lastChange then
    (true, { cb with state := BState.healthy, failures := 0, lastChange := now })
  else (true, cb)

/-- Model of `circuitBreaker.Success()` at instant `now`. -/
def successCB (now : Nat) (cb : CB) : CB :=
  if cb.state = BState.healthy then { cb with failures := 0 }
  else { cb with failures := 0, state := BState.healthy, lastChange := now }

/-- Model of `circuitBreaker.Failure()` at instant `now`; the `Bool` is `tripped`. -/
def failureCB (now : Nat) (cb : CB) : CB × Bool :=
  let f := cb.failures + 1
  if cb.threshold ≤ f ∧ cb.state = BState.healthy then
    ({ cb with failures := f, state := BState.degraded, lastChange := now }, true)
  else ({ cb with failures := f }, false)

/-- Model of `circuitBreaker.Drain()` at instant `now`. -/
def drainCB (now : Nat) (cb : CB) : CB :=
  { cb with state := BState.draining, lastChange := now }

end Breaker

namespace Pool

open Breaker

/-- Per-target state relevant to the drain/register/acquire gate of
`enclavePool` (pool file): its breaker, `closed` flag, `total` counter and
the current `Target` endpoint description. -/
structure EPool where
  target : String
  breaker : CB
  total : Nat
  closed : Bool
deriving DecidableEq, Repr

/-- Model of `newEnclavePool`: fresh breaker `newCircuitBreaker(3, time.Second)`
created at instant `now` (cooldown in milliseconds). -/
def newEnclavePool (tgt : String) (now : Nat) : EPool :=
  ⟨tgt, newCB 3 1000 now, 0, false⟩

/-- The `Pool.targets` map, as an association list keyed by target id. -/
def PoolMap := List (String × EPool)

instance : DecidableEq PoolMap := by
  unfold PoolMap
  infer_instance

/-- Model of `enclavePool.updateTarget`: refuses to touch a closed per-target pool. -/
def updateTarget (ep : EPool) (tgt : String) : EPool :=
  if ep.closed then ep else { ep with target := tgt }

/-- Model of `Pool.RegisterTarget`: update the existing per-target pool, or insert a
fresh one (whose warm-up is background work not modelled here). -/
def registerTarget (p : PoolMap) (id tgt : String) (now : Nat) : PoolMap :=
  if id = "" then p
  else
    match alistLookup p id with
    | some ep => alistUpdate p id (updateTarget ep tgt)
    | none => (id, newEnclavePool tgt now) :: p

/-- Model of `Pool.RemoveTarget`. -/
def removeTarget (p : PoolMap) (id : String) : PoolMap :=
  alistErase p id

/-- Model of `enclavePool.drain` + `enclavePool.close`: trip the breaker to
draining, mark closed, drop the ready connections and zero `total`. -/
def epDrain (ep : EPool) (now : Nat) : EPool :=
  let b := drainCB now ep.breaker
  if ep.closed then { ep with breaker := b }
  else { ep with breaker := b, closed := true, total := 0 }

/-- Model of `Pool.Drain(id)`: `false` when the target is not registered
(`ErrTargetNotFound`). -/
def drainPool (p : PoolMap) (id : String) (now : Nat) : PoolMap × Bool :=
  match alistLookup p id with
  | some ep => (alistUpdate p id (epDrain ep now), true)
  | none => (p, false)

/-- Errors of the acquire gate. -/
inductive AcqErr where
  | targetNotFound
  | poolDraining
deriving DecidableEq, Repr

/-- The gate of `Pool.Acquire` / `enclavePool.acquire`: target lookup plus
the breaker check that yields `ErrPoolDraining`; `none` means the call
proceeds to the ready-channel / dial logic. -/
def acquireGate (p : PoolMap) (id : String) (now : Nat) : PoolMap × Option AcqErr :=
  match alistLookup p id with
  | none => (p, some AcqErr.targetNotFound)
  | some ep =>
    match allowCB now ep.breaker with
    | (false, b) => (alistUpdate p id { ep with breaker := b }, some AcqErr.poolDraining)
    | (true, b) => (alistUpdate p id { ep with breaker := b }, none)

/-- A pooled connection as seen by `Lease.Release` / `enclavePool.release`:
an identity plus its `unhealthy` flag. -/
structure PConn where
  cid : Nat
  unhealthy : Bool
deriving DecidableEq, Repr

/-- The per-target state touched by `enclavePool.release`: the bounded
ready channel (capacity `capty`), the `total` counter, the `closed` flag,
and a log of connections that were closed (for at-most-once statements). -/
structure ReleaseState where
  ready : List PConn
  capty : Nat
  total : Nat
  closedPool : Bool
  closedConns : List PConn
deriving DecidableEq, Repr

/-- Model of `enclavePool.release(conn, err)`: an error outcome marks the connection
unhealthy; unhealthy or closed-pool or full-channel connections are closed
and `total` decremented, otherwise the connection returns to the ready
channel. -/
def epRelease (ps : ReleaseState) (c : PConn) (errOutcome : Bool) : ReleaseState :=
  let c := if errOutcome then { c with unhealthy := true } else c
  if c.unhealthy then
    { ps with total := ps.total - 1, closedConns := ps.closedConns ++ [c] }
  else if ps.closedPool then
    { ps with total := ps.total - 1, closedConns := ps.closedConns ++ [c] }
  else if ps.ready.length < ps.capty then
    { ps with ready := ps.ready ++ [c] }
  else
    { ps with total := ps.total - 1, closedConns := ps.closedConns ++ [c] }

/-- A `Lease`: the borrowed connection (nil after release) and the
`released` swap flag. -/
structure LeaseSt where
  conn : Option PConn
  released : Bool
deriving DecidableEq, Repr

/-- Model of `Lease.Release(err)`: `released.Swap(true)` makes every call after the
first a no-op; the first call hands the connection to
`enclavePool.release` and nils it out. -/
def leaseRelease (l : LeaseSt) (ps : ReleaseState) (errOutcome : Bool) :
    LeaseSt × ReleaseState :=
  match l.conn with
  | none => (l, ps)
  | some c =>
    if l.released then ({ l with released := true }, ps)
    else (⟨none, true⟩, epRelease ps c errOutcome)

/-- A sequence of `Release` calls on one lease, with arbitrary outcomes. -/
def releaseSeq (l : LeaseSt) (ps : ReleaseState) : List Bool → LeaseSt × ReleaseState
  | [] => (l, ps)
  | e :: es =>
    match leaseRelease l ps e with
    | (l1, ps1) => releaseSeq l1 ps1 es

end Pool

namespace Selector

/-- 32-bit FNV-1a over the key id's bytes (`hash/fnv`, `fnv.New32a`):
`h := 2166136261; h = (h XOR b) * 16777619 mod 2^32` per byte. -/
def fnv1a32 (bytes : List Nat) : Nat :=
  bytes.foldl (fun h b => ((h ^^^ b) * 16777619) % 4294967296) 2166136261

/-- Model of `StickySelector`: the target list captured at construction plus the
round-robin counter used only by `SelectForCreate`. Key ids appear as
their byte sequences. -/
structure StickySelector where
  targetIDs : List String
  rr : Nat
deriving DecidableEq, Repr

/-- Model of `NewStickySelector`: requires a non-empty target list and copies it. -/
def newStickySelector (t : List String) : Option StickySelector :=
  if t = [] then none else some ⟨t, 0⟩

/-- Model of `StickySelector.SelectForSign`: empty key id falls back to the first
target, otherwise index by the 32-bit hash modulo the target count. -/
def selectForSign (s : StickySelector) (key : List Nat) : Except String String :=
  match s.targetIDs with
  | [] => Except.error "no enclave targets configured"
  | t0 :: rest =>
    if key = [] then Except.ok t0
    else Except.ok ((t0 :: rest).getD (fnv1a32 key % (t0 :: rest).length) "")

end Selector

namespace Unlock

/-- Model of `Dispatcher` state touched by `NotifyUnlock`: the `states` dedup map
(key id ↦ the jobstate's current reason) and the bounded job queue
(capacity `maxQueue`), holding the key ids of queued jobs. -/
structure DispState where
  states : List (String × String)
  queue : List String
  maxQueue : Nat
deriving DecidableEq, Repr

/-- The four outcomes of `Dispatcher.NotifyUnlock`. -/
inductive NotifyResult where
  | invalidKeyID
  | rateLimited
  | accepted
  | queueFull
deriving DecidableEq, Repr

/-- Model of `Dispatcher.NotifyUnlock(event)`: reject empty key ids, consult the
rate limiter (its verdict is the oracle `limiterAllows`), dedup under the
lock by overwriting the existing jobstate's reason, otherwise create the
jobstate and push non-blockingly — deleting the jobstate again when the
queue is full. -/
def notifyUnlock (d : DispState) (keyID reason : String) (limiterAllows : Bool) :
    DispState × NotifyResult :=
  if keyID = "" then (d, NotifyResult.invalidKeyID)
  else if !limiterAllows then (d, NotifyResult.rateLimited)
  else
    match alistLookup d.states keyID with
    | some _ => ({ d with states := alistUpdate d.states keyID reason }, NotifyResult.accepted)
    | none =>
      if d.queue.length < d.maxQueue then
        ({ d with states := (keyID, reason) :: d.states, queue := d.queue ++ [keyID] },
          NotifyResult.accepted)
      else
        ({ d with states := alistErase ((keyID, reason) :: d.states) keyID },
          NotifyResult.queueFull)

end Unlock

namespace Validator

/-- Go `encoding/hex` digit decoding (case-insensitive). -/
def hexDigitVal (c : Char) : Option Nat :=
  if '0' ≤ c ∧ c ≤ '9' then some (c.toNat - 48)
  else if 'a' ≤ c ∧ c ≤ 'f' then some (c.toNat - 87)
  else if 'A' ≤ c ∧ c ≤ 'F' then some (c.toNat - 55)
  else none

/-- Lowercase hex digit, as emitted by `hex.EncodeToString`. -/
def hexDigitChar (n : Nat) : Char :=
  "0123456789abcdef".toList.getD n '0'

/-- Model of `hex.DecodeString`: pairs of hex digits; odd length or an illegal
character is an error. -/
def hexDecodeChars : List Char → Option (List Nat)
  | [] => some []
  | [_] => none
  | c1 :: c2 :: rest =>
    match hexDigitVal c1, hexDigitVal c2, hexDecodeChars rest with
    | some h, some l, some bs => some ((h * 16 + l) :: bs)
    | _, _, _ => none

/-- Model of `hex.EncodeToString` over bytes-as-`Nat`s. -/
def hexEncode : List Nat → List Char
  | [] => []
  | b :: rest => hexDigitChar (b / 16) :: hexDigitChar (b % 16) :: hexEncode rest

/-- The standard base64 alphabet (`base64.StdEncoding`). -/
def b64Alphabet : List Char :=
  "ABCDEFGHIJKLMNOPQRSTUVWXYZabcdefghijklmnopqrstuvwxyz0123456789+/".toList

/-- Character for a six-bit group. -/
def b64Char (n : Nat) : Char :=
  b64Alphabet.getD n 'A'

/-- Six-bit value of an alphabet character. -/
def b64Val (c : Char) : Option Nat :=
  if 'A' ≤ c ∧ c ≤ 'Z' then some (c.toNat - 65)
  else if 'a' ≤ c ∧ c ≤ 'z' then some (c.toNat - 71)
  else if '0' ≤ c ∧ c ≤ '9' then some (c.toNat + 4)
  else if c = '+' then some 62
  else if c = '/' then some 63
  else none

/-- Model of `base64.StdEncoding.EncodeToString`: three bytes per four characters,
`=`-padded tail. -/
def b64Encode : List Nat → List Char
  | [] => []
  | [b0] => [b64Char (b0 / 4), b64Char (b0 % 4 * 16), '=', '=']
  | [b0, b1] =>
    [b64Char (b0 / 4), b64Char (b0 % 4 * 16 + b1 / 16), b64Char (b1 % 16 * 4), '=']
  | b0 :: b1 :: b2 :: rest =>
    b64Char (b0 / 4) :: b64Char (b0 % 4 * 16 + b1 / 16) ::
      b64Char (b1 % 16 * 4 + b2 / 64) :: b64Char (b2 % 64) :: b64Encode rest

/-- Four-character quanta of `base64.StdEncoding.Decode`: padding may only
occur in the final quantum, data after padding is an error, and a quantum
shorter than four characters is an error. -/
def b64DecodeQuanta : List Char → Option (List Nat)
  | [] => some []
  | c0 :: c1 :: c2 :: c3 :: rest =>
    match b64Val c0, b64Val c1 with
    | some s0, some s1 =>
      if c2 = '=' then
        if c3 = '=' ∧ rest = [] then some [s0 * 4 + s1 / 16] else none
      else
        match b64Val c2 with
        | some s2 =>
          if c3 = '=' then
            if rest = [] then some [s0 * 4 + s1 / 16, s1 % 16 * 16 + s2 / 4] else none
          else
            match b64Val c3, b64DecodeQuanta rest with
            | some s3, some bs =>
              some ((s0 * 4 + s1 / 16) :: (s1 % 16 * 16 + s2 / 4) ::
                (s2 % 4 * 64 + s3) :: bs)
            | _, _ => none
        | none => none
    | _, _ => none
  | _ => none

/-- Model of `base64.StdEncoding.DecodeString`: newline characters are ignored,
then the four-character quanta are decoded. -/
def b64Decode (cs : List Char) : Option (List Nat) :=
  b64DecodeQuanta (cs.filter (fun c => c != '\r' && c != '\n'))

/-- Model of `DigestEncoding` (digest.go). -/
inductive DigestEncoding where
  | hex
  | base64
deriving DecidableEq, Repr

/-- Model of `DecodeDigest(digest, enc)`: decode in the selected encoding, then
require exactly 32 bytes. -/
def DecodeDigest (digest : List Char) (enc : DigestEncoding) :
    Except String (List Nat) :=
  match enc with
  | DigestEncoding.hex =>
    match hexDecodeChars digest with
    | none => Except.error "invalid hex digest"
    | some decoded =>
      if decoded.length = 32 then Except.ok decoded
      else Except.error "digest must decode to 32 bytes"
  | DigestEncoding.base64 =>
    match b64Decode digest with
    | none => Except.error "invalid base64 digest"
    | some decoded =>
      if decoded.length = 32 then Except.ok decoded
      else Except.error "digest must decode to 32 bytes"

end Validator

/-! ## Theorems settling the claims -/

section Claims

open KeyCache Breaker Pool Selector Unlock Validator

/-- Concrete breaker for claim C5: threshold 1, cooldown 5, created at
instant 0, tripped by one `Failure()` at instant 3 (hence degraded with
`lastChange = 3`). -/
def cbC5 : CB := (failureCB 3 (newCB 1 5 0)).1

/-- Claim C5, as stated, is false: it demands that `Allow()` deny the call
for every breaker that is degraded and not yet cooled down, but at instant
4 the degraded breaker `cbC5` (cooldown 5, tripped at 3) still permits the
call — exactly as the repository's own breaker test expects. -/
theorem c5_counterexample :
    ¬ (∀ (cb : CB) (now : Nat), cb.state = BState.degraded →
        now - cb.lastChange ≤ cb.cooldown → (allowCB now cb).1 = false) := by
  intro h
  exact absurd (h cbC5 4 (by decide) (by decide)) (by decide)

/-- Claim C5 (corrected): `Allow()` denies a call exactly when the breaker
is draining. A degraded breaker whose cooldown has elapsed is reset to
healthy (failures cleared, `lastChange` updated) and the call is
permitted; a degraded breaker still inside its cooldown is also permitted
and left unchanged. -/
theorem c5_allow_denies_only_draining :
    ∀ (cb : CB) (now : Nat),
      ((allowCB now cb).1 = false ↔ cb.state = BState.draining) ∧
      (cb.state = BState.degraded → cb.cooldown < now - cb.lastChange →
        (allowCB now cb).2 =
          { cb with state := BState.healthy, failures := 0, lastChange := now }) ∧
      (cb.state = BState.degraded → ¬ cb.cooldown < now - cb.lastChange →
        (allowCB now cb).2 = cb ∧ (allowCB now cb).1 = true) := by
  intro cb now
  unfold allowCB
  split_ifs with h1 h2 <;> simp_all

/-- Witness for `c5_allow_denies_only_draining` at `cbC5` and instant 10
(cooldown elapsed: 10 - 3 = 7 > 5). -/
theorem c5_allow_witness :
    (allowCB 10 cbC5).2 =
      { cbC5 with state := BState.healthy, failures := 0, lastChange := 10 } :=
  (c5_allow_denies_only_draining cbC5 10).2.1 (by decide) (by decide)

/-- Releasing a lease whose connection is already gone never changes the
pool state. -/
theorem releaseSeq_spent :
    ∀ (es : List Bool) (ps : ReleaseState),
      releaseSeq ⟨none, true⟩ ps es = (⟨none, true⟩, ps) := by
  intro es
  induction es with
  | nil => intro ps; rfl
  | cons e es ih =>
    intro ps
    simpa [releaseSeq, leaseRelease] using ih ps

/-- Claim C10: `Lease.Release` is idempotent. For every fresh lease over a
connection `c` and every non-empty sequence of `Release` calls with
arbitrary outcomes, the pool state after the whole sequence equals the
effect of `enclavePool.release` applied exactly once, with the first
call's outcome; afterwards the lease holds no connection. Hence the
connection is returned to the ready channel or closed at most once, and
`total` is decremented at most once, on behalf of that lease. -/
theorem c10_lease_release_idempotent :
    ∀ (c : PConn) (ps : ReleaseState) (e : Bool) (es : List Bool),
      releaseSeq ⟨some c, false⟩ ps (e :: es) = (⟨none, true⟩, epRelease ps c e) := by
  intro c ps e es
  simpa [releaseSeq, leaseRelease] using releaseSeq_spent es (epRelease ps c e)

/-- Looking up the key just updated yields the new value when the key was
bound, and nothing otherwise. -/
theorem alistLookup_update_self {β : Type} :
    ∀ (l : List (String × β)) (id : String) (b : β),
      alistLookup (alistUpdate l id b) id = (alistLookup l id).map (fun _ => b) := by
  intro l id b
  induction l with
  | nil => rfl
  | cons kv rest ih =>
    obtain ⟨k, v⟩ := kv
    by_cases h : k = id
    · simp [alistUpdate, alistLookup, h]
    · simp [alistUpdate, alistLookup, h, ih]

/-- Draining a per-target pool trips its breaker to draining and marks it
closed. -/
theorem epDrain_fields (ep : EPool) (now : Nat) :
    (epDrain ep now).breaker.state = BState.draining ∧ (epDrain ep now).closed = true := by
  unfold epDrain drainCB
  split_ifs with h <;> simp_all

/-- A draining breaker denies and is left unchanged by `Allow()`. -/
theorem allowCB_draining (cb : CB) (now : Nat) (h : cb.state = BState.draining) :
    allowCB now cb = (false, cb) := by
  unfold allowCB
  simp [h]

/-- The acquire gate reports `PoolDraining` whenever the target's breaker
is draining. -/
theorem acquireGate_of_draining (p : PoolMap) (id : String) (ep : EPool) (now : Nat)
    (hlk : alistLookup p id = some ep) (hst : ep.breaker.state = BState.draining) :
    (acquireGate p id now).2 = some AcqErr.poolDraining := by
  simp [acquireGate, hlk, allowCB_draining ep.breaker now hst]

/-- Concrete pool trace for claim C7: register target id `a`, drain it,
then call `RegisterTarget` again for `a`. -/
def poolC7 : PoolMap :=
  registerTarget (drainPool (registerTarget [] "a" "endpoint-a" 0) "a" 1).1 "a" "endpoint-a" 2

/-- Claim C7, as stated, is false: after `Drain("a")` a renewed
`RegisterTarget` for `a` finds the existing closed per-target pool, whose
`updateTarget` refuses to touch it, so the breaker stays draining and
`Acquire` still fails with `PoolDraining`. -/
theorem c7_counterexample :
    (acquireGate (registerTarget (drainPool (registerTarget [] "a" "endpoint-a" 0)
        "a" 1).1 "a" "endpoint-a" 2) "a" 3).2 = some AcqErr.poolDraining ∧
    (acquireGate (registerTarget [] "a" "endpoint-a" 0) "a" 0).2 = none := by
  constructor <;> decide

/-- Claim C7 (corrected): for every pool with a registered target id,
after `drain(id)` every `acquire(id)` returns `PoolDraining`, and this
persists even after `RegisterTarget` is called again for that id (the
closed per-target pool is kept and left untouched); acquisition stops
returning `PoolDraining` only once the id is registered fresh, i.e. while
no binding for it exists (as after `RemoveTarget`). -/
theorem c7_drain_persists_after_reregister :
    ∀ (p : PoolMap) (id tgt : String) (ep : EPool) (nowD nowR nowA nowB : Nat),
      alistLookup p id = some ep →
      ((acquireGate (drainPool p id nowD).1 id nowA).2 = some AcqErr.poolDraining ∧
       (acquireGate (registerTarget (drainPool p id nowD).1 id tgt nowR) id nowB).2 =
         some AcqErr.poolDraining) ∧
      (∀ (q : PoolMap) (now1 now2 : Nat), id ≠ "" → alistLookup q id = none →
        (acquireGate (registerTarget q id tgt now1) id now2).2 = none) := by
  intro p id tgt ep nowD nowR nowA nowB hlk
  have hdrain : (drainPool p id nowD).1 = alistUpdate p id (epDrain ep nowD) := by
    unfold drainPool
    rw [hlk]
  have hlk1 : alistLookup (drainPool p id nowD).1 id = some (epDrain ep nowD) := by
    rw [hdrain, alistLookup_update_self, hlk]
    rfl
  refine ⟨⟨?_, ?_⟩, ?_⟩
  · exact acquireGate_of_draining _ id _ nowA hlk1 (epDrain_fields ep nowD).1
  · by_cases hid : id = ""
    · unfold registerTarget
      rw [if_pos hid]
      exact acquireGate_of_draining _ id _ nowB hlk1 (epDrain_fields ep nowD).1
    · have hreg : registerTarget (drainPool p id nowD).1 id tgt nowR =
          alistUpdate (drainPool p id nowD).1 id (epDrain ep nowD) := by
        simp [registerTarget, hid, hlk1, updateTarget, (epDrain_fields ep nowD).2]
      have hlk2 : alistLookup (registerTarget (drainPool p id nowD).1 id tgt nowR) id =
          some (epDrain ep nowD) := by
        rw [hreg, alistLookup_update_self, hlk1]
        rfl
      exact acquireGate_of_draining _ id _ nowB hlk2 (epDrain_fields ep nowD).1
  · intro q now1 now2 hid hnone
    have hreg : registerTarget q id tgt now1 = (id, newEnclavePool tgt now1) :: q := by
      unfold registerTarget
      rw [if_neg hid, hnone]
    rw [hreg]
    unfold acquireGate alistLookup
    simp [newEnclavePool, newCB, allowCB]

/-- Witness for `c7_drain_persists_after_reregister` on the concrete
one-target pool. -/
theorem c7_drain_witness :
    (acquireGate (drainPool (registerTarget [] "a" "endpoint-a" 0) "a" 1).1 "a" 3).2 =
      some AcqErr.poolDraining :=
  ((c7_drain_persists_after_reregister (registerTarget [] "a" "endpoint-a" 0)
    "a" "endpoint-a" (newEnclavePool "endpoint-a" 0) 1 2 3 4 (by decide)).1).1

/-- Claim C9: over the fixed non-empty target list captured at
construction, `SelectForSign` is a function of the key id alone — the
round-robin counter (the only other selector state) is irrelevant; a
non-empty key id selects index `fnv1a32(id) mod |targets|`, an empty key
id falls back to the first target, and the result always lies in the
constructed list. -/
theorem c9_select_for_sign_sticky :
    ∀ (t : List String) (rr rr' : Nat) (key : List Nat), t ≠ [] →
      (newStickySelector t = some ⟨t, 0⟩) ∧
      (selectForSign ⟨t, rr⟩ key = selectForSign ⟨t, rr'⟩ key) ∧
      (key = [] → selectForSign ⟨t, rr⟩ key = Except.ok (t.getD 0 "")) ∧
      (key ≠ [] → selectForSign ⟨t, rr⟩ key =
        Except.ok (t.getD (fnv1a32 key % t.length) "")) ∧
      (∀ tgt, selectForSign ⟨t, rr⟩ key = Except.ok tgt → tgt ∈ t) := by
  intro t rr rr' key ht
  obtain ⟨t0, rest, rfl⟩ : ∃ t0 rest, t = t0 :: rest := by
    cases t with
    | nil => exact absurd rfl ht
    | cons a l => exact ⟨a, l, rfl⟩
  have hpos : 0 < (t0 :: rest).length := Nat.succ_pos _
  refine ⟨by simp [newStickySelector], rfl, ?_, ?_, ?_⟩
  · intro hk
    simp [selectForSign, hk]
  · intro hk
    simp [selectForSign, hk]
  · intro tgt h
    by_cases hk : key = []
    · simp [selectForSign, hk] at h
      subst h
      exact List.mem_cons_self t0 rest
    · have hsel : selectForSign ⟨t0 :: rest, rr⟩ key =
          Except.ok ((t0 :: rest).getD (fnv1a32 key % (t0 :: rest).length) "") := by
        simp only [selectForSign]
        rw [if_neg hk]
      rw [hsel] at h
      have hidx : fnv1a32 key % (t0 :: rest).length < (t0 :: rest).length :=
        Nat.mod_lt _ hpos
      have htgt : tgt = (t0 :: rest)[fnv1a32 key % (t0 :: rest).length] := by
        rw [List.getD_eq_getElem _ "" hidx] at h
        exact (Except.ok.injEq _ _).mp h |>.symm
      rw [htgt]
      exact List.getElem_mem hidx

/-- Witness for `c9_select_for_sign_sticky`: selector over `["a", "b"]`,
round-robin counters 5 and 6, empty key id falls back to target `a`. -/
theorem c9_select_witness :
    selectForSign ⟨["a", "b"], 5⟩ [] = Except.ok "a" :=
  (c9_select_for_sign_sticky ["a", "b"] 5 6 [] (by decide)).2.2.1 rfl

/-- Claim C6: `NotifyUnlock` with a non-empty key id that passes the rate
limiter either dedups (a jobstate for the key exists: its reason is
overwritten, the call succeeds, the queue is untouched), or creates the
jobstate and enqueues the job when the queue has room, or — when the
queue is full — removes the just-created jobstate and fails `QueueFull`,
leaving the dispatcher exactly as before and no jobstate for that key. -/
theorem c6_notify_unlock_dedup_queuefull :
    ∀ (d : DispState) (key reason : String), key ≠ "" →
      ((∃ r0, alistLookup d.states key = some r0) →
        notifyUnlock d key reason true =
          ({ d with states := alistUpdate d.states key reason }, NotifyResult.accepted) ∧
        alistLookup (notifyUnlock d key reason true).1.states key = some reason ∧
        (notifyUnlock d key reason true).1.queue = d.queue) ∧
      (alistLookup d.states key = none → d.queue.length < d.maxQueue →
        notifyUnlock d key reason true =
          ({ d with states := (key, reason) :: d.states, queue := d.queue ++ [key] },
            NotifyResult.accepted)) ∧
      (alistLookup d.states key = none → ¬ d.queue.length < d.maxQueue →
        notifyUnlock d key reason true = (d, NotifyResult.queueFull) ∧
        alistLookup (notifyUnlock d key reason true).1.states key = none) := by
  intro d key reason hkey
  refine ⟨?_, ?_, ?_⟩
  · rintro ⟨r0, hr⟩
    have h1 : notifyUnlock d key reason true =
        ({ d with states := alistUpdate d.states key reason }, NotifyResult.accepted) := by
      simp [notifyUnlock, hkey, hr]
    refine ⟨h1, ?_, ?_⟩
    · rw [h1]
      simp [alistLookup_update_self, hr]
    · rw [h1]
  · intro hn hq
    simp [notifyUnlock, hkey, hn, hq]
  · intro hn hq
    have h1 : notifyUnlock d key reason true = (d, NotifyResult.queueFull) := by
      simp [notifyUnlock, hkey, hn, hq, alistErase]
    refine ⟨h1, ?_⟩
    rw [h1]
    exact hn

/-- Concrete dispatcher state for the C6 witness: one existing jobstate
for key `k`, empty queue, capacity 4. -/
def dispC6 : DispState := ⟨[("k", "old")], [], 4⟩

/-- Witness for `c6_notify_unlock_dedup_queuefull`: deduping a second
notification for key `k` overwrites the recorded reason. -/
theorem c6_notify_witness :
    alistLookup (notifyUnlock dispC6 "k" "new" true).1.states "k" = some "new" :=
  ((c6_notify_unlock_dedup_queuefull dispC6 "k" "new" (by decide)).1 ⟨"old", rfl⟩).2.1

/-- Entering COOL preserves the WARM-iff-plaintext invariant. -/
theorem inv_toCool (e : Entry) (h : EntryInv e) : EntryInv (toCool e) := by
  unfold EntryInv toCool clearPlain at *
  split_ifs with hc <;> simp_all

/-- Entering INVALID preserves the WARM-iff-plaintext invariant. -/
theorem inv_toInvalid (e : Entry) (h : EntryInv e) : EntryInv (toInvalid e) := by
  unfold EntryInv toInvalid clearPlain at *
  split_ifs with hc <;> simp_all

/-- A successful rehydration establishes the WARM-iff-plaintext invariant
outright. -/
theorem inv_rehydrateOk (e : Entry) (now : Nat) (plain : List Nat) :
    EntryInv (rehydrateOk e now plain) := by
  unfold EntryInv rehydrateOk
  simp

/-- The validity check preserves the WARM-iff-plaintext invariant. -/
theorem inv_ensureValid (e : Entry) (now : Nat) (h : EntryInv e) :
    EntryInv (ensureValid e now).1 := by
  unfold ensureValid
  split_ifs with h1 h2
  · exact inv_toInvalid e h
  · exact h
  · exact h

/-- When the validity check passes, the entry is untouched, the DEK is
unexpired and the state is not INVALID. -/
theorem ensureValid_none (e : Entry) (now : Nat) :
    (ensureValid e now).2 = none →
    (ensureValid e now).1 = e ∧ ¬ e.dekValidUntil < now ∧ e.state ≠ EState.invalid := by
  unfold ensureValid
  split_ifs with h1 h2
  · intro h
    simp at h
  · intro h
    simp at h
  · intro _
    exact ⟨rfl, h1, h2⟩

/-- One refresh pass preserves the WARM-iff-plaintext invariant, whatever
the rehydrator returns. -/
theorem inv_refreshOnce (e : Entry) (now : Nat) (rh : Option (List Nat)) (h : EntryInv e) :
    EntryInv (refreshOnce e now rh).1 := by
  rcases hev : ensureValid e now with ⟨e1, err?⟩
  have he1 : EntryInv e1 := by
    have h2 := inv_ensureValid e now h
    rw [hev] at h2
    exact h2
  cases err? with
  | some err => simpa [refreshOnce, hev] using he1
  | none =>
    by_cases hf : freshEnough e1 now
    · simpa [refreshOnce, hev, hf] using he1
    · by_cases hn : needRefresh e1 now
      · cases rh with
        | none =>
          simpa [refreshOnce, hev, hf, hn, rehydrateStep] using
            inv_toInvalid _ (inv_toCool _ he1)
        | some plain =>
          simpa [refreshOnce, hev, hf, hn, rehydrateStep] using
            inv_rehydrateOk (toCool e1) now plain
      · cases rh with
        | none =>
          simpa [refreshOnce, hev, hf, hn, rehydrateStep] using inv_toInvalid _ he1
        | some plain =>
          simpa [refreshOnce, hev, hf, hn, rehydrateStep] using
            inv_rehydrateOk e1 now plain

/-- Every `Checkout`, over any iteration trace, preserves the
WARM-iff-plaintext invariant. -/
theorem inv_checkout :
    ∀ (tr : List (Nat × RefreshInput)) (e : Entry), EntryInv e → EntryInv (checkout e tr).1 := by
  intro tr
  induction tr with
  | nil => intro e h; exact h
  | cons step rest ih =>
    intro e h
    obtain ⟨now, ri⟩ := step
    rcases hev : ensureValid e now with ⟨e1, err?⟩
    have he1 : EntryInv e1 := by
      have h2 := inv_ensureValid e now h
      rw [hev] at h2
      exact h2
    cases err? with
    | some err => simpa [checkout, hev] using he1
    | none =>
      by_cases hn : needRefresh e1 now
      · cases ri with
        | timeout => simpa [checkout, hev, hn] using he1
        | run nowR rh =>
          rcases hro : refreshOnce e1 nowR rh with ⟨e2, err2, flag⟩
          have he2 : EntryInv e2 := by
            have h2 := inv_refreshOnce e1 nowR rh he1
            rw [hro] at h2
            exact h2
          cases err2 with
          | some err => simpa [checkout, hev, hn, hro] using he2
          | none => simpa [checkout, hev, hn, hro] using ih e2 he2
      · have hd : EntryInv { e1 with usesLeft := e1.usesLeft - 1 } := he1
        simpa [checkout, hev, hn] using hd

/-- Construction via `NewEntry` establishes the WARM-iff-plaintext
invariant: warm exactly when a plaintext was supplied. -/
theorem inv_newEntry :
    ∀ (cfg : EntryConfig) (e : Entry), newEntry cfg = some e → EntryInv e := by
  intro cfg e h
  by_cases h1 : (cfg.keyID = "" ∨ cfg.enclave = "" ∨ cfg.keyspace = "")
  · simp [newEntry, h1] at h
  · by_cases h2 : cfg.hasPlainKey = true
    · simp only [newEntry, h1, if_false, h2, if_true, Option.some.injEq] at h
      subst h
      simp [EntryInv, h2]
    · have hb : cfg.hasPlainKey = false := by
        cases hc : cfg.hasPlainKey
        · rfl
        · exact absurd hc h2
      simp only [newEntry, h1, if_false, hb, Bool.false_eq_true, Option.some.injEq] at h
      subst h
      simp [EntryInv, clearPlain]

/-- Concrete configuration for the claim C1 counterexample: a warm entry
with one use left (soft TTL 100, hard TTL 200, DEK valid until 1000). -/
def cfgC1 : EntryConfig :=
  ⟨"key-1", "enclave-a", "ks", List.replicate 32 170, true, 1, 10, 1, 100, 200, 1000, 0⟩

/-- The entry produced by `newEntry cfgC1`. -/
def entC1 : Entry :=
  { keyID := "key-1"
    keyspace := "ks"
    priv32 := List.replicate 32 170
    hasPlainKey := true
    usesLeft := 1
    softTTL := 100
    hardTTL := 200
    dekValidUntil := 1000
    state := EState.warm
    maxUses := 10
    lowWater := 1
    softWindow := 100
    hardWindow := 200 }

/-- Claim C1, as stated, is false, in two ways. Checking out the last use
of the warm entry `entC1` at instant 5 succeeds and leaves the entry WARM
with `uses_left = 0`, so immediately after that `Checkout` returns the
biconditional `state = Warm ↔ (has_plain ∧ uses_left > 0 ∧ now ≤ hard_ttl
∧ now ≤ dek_valid_until)` does not hold; and advancing the clock to
instant 500 (past `hard_ttl = 200` but inside `dek_valid_until = 1000`)
without touching the entry breaks the biconditional on the freshly
constructed `entC1` as well. -/
theorem c1_counterexample :
    newEntry cfgC1 = some entC1 ∧
    (checkout entC1 [(5, RefreshInput.timeout)]).2 = COut.ok (List.replicate 32 170) ∧
    ¬ ((checkout entC1 [(5, RefreshInput.timeout)]).1.state = EState.warm ↔
        ((checkout entC1 [(5, RefreshInput.timeout)]).1.hasPlainKey = true ∧
         0 < (checkout entC1 [(5, RefreshInput.timeout)]).1.usesLeft ∧
         5 ≤ (checkout entC1 [(5, RefreshInput.timeout)]).1.hardTTL ∧
         5 ≤ (checkout entC1 [(5, RefreshInput.timeout)]).1.dekValidUntil)) ∧
    ¬ (entC1.state = EState.warm ↔
        (entC1.hasPlainKey = true ∧ 0 < entC1.usesLeft ∧
         500 ≤ entC1.hardTTL ∧ 500 ≤ entC1.dekValidUntil)) := by
  refine ⟨by decide, by decide, ?_, ?_⟩ <;> decide

/-- Claim C1 (corrected): the invariant that holds at every externally
observable point is `state = Warm ⇔ has_plain = true`. It is established
by `NewEntry` and preserved by every `Checkout` (over any trace of clock
readings and rehydrator outcomes) and by every foreground or background
`refreshOnce`. The remaining conjuncts of the claimed biconditional hold
when the entry enters WARM but can be violated while it stays WARM: a
checkout can consume the last use (`uses_left = 0`, see the
counterexample) and the clock can pass `hard_ttl` or `dek_valid_until`
before the next operation observes the entry. -/
theorem c1_warm_iff_hasplain :
    (∀ (cfg : EntryConfig) (e : Entry), newEntry cfg = some e → EntryInv e) ∧
    (∀ (e : Entry) (tr : List (Nat × RefreshInput)), EntryInv e → EntryInv (checkout e tr).1) ∧
    (∀ (e : Entry) (now : Nat) (rh : Option (List Nat)), EntryInv e → EntryInv (refreshOnce e now rh).1) :=
  ⟨inv_newEntry, fun e tr h => inv_checkout tr e h, fun e now rh h => inv_refreshOnce e now rh h⟩

/-- Witness for `c1_warm_iff_hasplain` on the concrete entry `entC1` and a
one-iteration trace. -/
theorem c1_invariant_witness :
    EntryInv (checkout entC1 [(5, RefreshInput.timeout)]).1 :=
  c1_warm_iff_hasplain.2.1 entC1 [(5, RefreshInput.timeout)] (by decide)

/-- Entering COOL never touches the configured windows, budgets or the
DEK deadline. -/
theorem toCool_config (e : Entry) :
    (toCool e).maxUses = e.maxUses ∧ (toCool e).softWindow = e.softWindow ∧
    (toCool e).hardWindow = e.hardWindow ∧ (toCool e).dekValidUntil = e.dekValidUntil := by
  unfold toCool clearPlain
  split_ifs <;> simp

/-- Entering INVALID leaves the entry in the INVALID state and never
touches the DEK deadline. -/
theorem toInvalid_fields (e : Entry) :
    (toInvalid e).state = EState.invalid ∧ (toInvalid e).dekValidUntil = e.dekValidUntil := by
  unfold toInvalid clearPlain
  split_ifs with h <;> simp_all

/-- Claim C3: whenever `refreshOnce` actually invokes the rehydrator (its
invocation flag is set) and the rehydrator succeeds with plaintext
`plain`, the entry afterwards holds exactly that plaintext, has
`has_plain = true`, `uses_left = max_uses`, `soft_ttl = now + soft_window`
and `hard_ttl = now + hard_window`, is WARM, and no error is returned. -/
theorem c3_refresh_success_postcondition :
    ∀ (e : Entry) (now : Nat) (plain : List Nat),
      (refreshOnce e now (some plain)).2.2 = true →
      (refreshOnce e now (some plain)).1.priv32 = plain ∧
      (refreshOnce e now (some plain)).1.hasPlainKey = true ∧
      (refreshOnce e now (some plain)).1.usesLeft = e.maxUses ∧
      (refreshOnce e now (some plain)).1.softTTL = now + e.softWindow ∧
      (refreshOnce e now (some plain)).1.hardTTL = now + e.hardWindow ∧
      (refreshOnce e now (some plain)).1.state = EState.warm ∧
      (refreshOnce e now (some plain)).2.1 = none := by
  intro e now plain hflag
  rcases hev : ensureValid e now with ⟨e1, err?⟩
  cases err? with
  | some err => simp [refreshOnce, hev] at hflag
  | none =>
    have he1 : e1 = e := by
      have h2 := (ensureValid_none e now (by rw [hev])).1
      rw [hev] at h2
      exact h2
    subst he1
    by_cases hf : freshEnough e1 now
    · simp [refreshOnce, hev, hf] at hflag
    · by_cases hn : needRefresh e1 now
      · have hc := toCool_config e1
        simp [refreshOnce, hev, hf, hn, rehydrateStep, rehydrateOk, hc.1, hc.2.1, hc.2.2.1]
      · simp [refreshOnce, hev, hf, hn, rehydrateStep, rehydrateOk]

/-- Concrete cool entry for the C3 witness: no plaintext, zero budget. -/
def entC3 : Entry :=
  { keyID := "key-3"
    keyspace := "ks"
    priv32 := zeros32
    hasPlainKey := false
    usesLeft := 0
    softTTL := 100
    hardTTL := 200
    dekValidUntil := 1000
    state := EState.cool
    maxUses := 10
    lowWater := 1
    softWindow := 100
    hardWindow := 200 }

/-- Witness for `c3_refresh_success_postcondition`: rehydrating `entC3` at
instant 5 with plaintext `0xBB * 32` resets the budget to `max_uses`. -/
theorem c3_refresh_witness :
    (refreshOnce entC3 5 (some (List.replicate 32 187))).1.usesLeft = entC3.maxUses :=
  (c3_refresh_success_postcondition entC3 5 (List.replicate 32 187) (by decide)).2.2.1

/-- Head-of-trace guard for claim C4: the call's first clock reading is
past the entry's DEK deadline. -/
def headAfterDek (e : Entry) (call : List (Nat × RefreshInput)) : Prop :=
  match call with
  | [] => False
  | (now, _) :: _ => e.dekValidUntil < now

instance : (e : Entry) → (call : List (Nat × RefreshInput)) → Decidable (headAfterDek e call)
  | _, [] => isFalse (fun h => h)
  | e, (now, _) :: _ => Nat.decLt e.dekValidUntil now

/-- A `Checkout` whose first clock reading is past the DEK deadline fails
immediately with UNLOCK_REQUIRED "dek expired" and forces INVALID. -/
theorem checkout_dek_expired (e : Entry) (now : Nat) (ri : RefreshInput)
    (rest : List (Nat × RefreshInput)) (h : e.dekValidUntil < now) :
    checkout e ((now, ri) :: rest) =
      (toInvalid e, COut.failed (unlockRequired "dek expired")) := by
  simp [checkout, ensureValid, h]

/-- Claim C4: once `now > dek_valid_until`, every subsequent `Checkout`
(each call's clock readings only move forward, so each first reading stays
past the never-changing DEK deadline) fails with UNLOCK_REQUIRED
"dek expired", and the entry is forced to INVALID regardless of its other
fields. -/
theorem c4_dek_expiry_fails_checkouts :
    ∀ (calls : List (List (Nat × RefreshInput))) (e : Entry),
      (∀ call ∈ calls, headAfterDek e call) →
      (checkoutSeq e calls).2 =
        calls.map (fun _ => COut.failed (unlockRequired "dek expired")) ∧
      (checkoutSeq e calls).1.dekValidUntil = e.dekValidUntil ∧
      (calls ≠ [] → (checkoutSeq e calls).1.state = EState.invalid) := by
  intro calls
  induction calls with
  | nil =>
    intro e _
    exact ⟨rfl, rfl, fun hne => absurd rfl hne⟩
  | cons call ts ih =>
    intro e h
    have hhead := h call (List.mem_cons_self _ _)
    cases call with
    | nil => exact absurd hhead (fun hf => hf)
    | cons p rest =>
      obtain ⟨now, ri⟩ := p
      have hlt : e.dekValidUntil < now := hhead
      have hck := checkout_dek_expired e now ri rest hlt
      have hts : ∀ c ∈ ts, headAfterDek (toInvalid e) c := by
        intro c hc
        have h2 := h c (List.mem_cons_of_mem _ hc)
        cases c with
        | nil => exact h2
        | cons q rest' =>
          obtain ⟨now', ri'⟩ := q
          have : e.dekValidUntil < now' := h2
          show (toInvalid e).dekValidUntil < now'
          rw [(toInvalid_fields e).2]
          exact this
      obtain ⟨ihmap, ihdek, ihst⟩ := ih (toInvalid e) hts
      refine ⟨?_, ?_, ?_⟩
      · simp [checkoutSeq, hck, ihmap]
      · simp only [checkoutSeq, hck]
        rw [ihdek, (toInvalid_fields e).2]
      · intro _
        cases ts with
        | nil =>
          simp only [checkoutSeq, hck]
          exact (toInvalid_fields e).1
        | cons t ts' =>
          simp only [checkoutSeq, hck]
          exact ihst (by simp)

/-- Concrete entry for the C4 witness: DEK valid until instant 1000,
checked out at instants 2000 and 3000. -/
def entC4 : Entry :=
  { keyID := "key-4"
    keyspace := "ks"
    priv32 := List.replicate 32 170
    hasPlainKey := true
    usesLeft := 5
    softTTL := 100
    hardTTL := 200
    dekValidUntil := 1000
    state := EState.warm
    maxUses := 10
    lowWater := 1
    softWindow := 100
    hardWindow := 200 }

/-- Witness for `c4_dek_expiry_fails_checkouts`: two late checkouts both
fail with "dek expired" and the entry ends INVALID. -/
theorem c4_dek_witness :
    (checkoutSeq entC4 [[(2000, RefreshInput.timeout)], [(3000, RefreshInput.timeout)]]).2 =
      [COut.failed (unlockRequired "dek expired"), COut.failed (unlockRequired "dek expired")] :=
  (c4_dek_expiry_fails_checkouts [[(2000, RefreshInput.timeout)], [(3000, RefreshInput.timeout)]]
    entC4 (by decide)).1

/-- Decoding inverts encoding on hex digits. -/
theorem hexDigitVal_hexDigitChar : ∀ n < 16, hexDigitVal (hexDigitChar n) = some n := by
  decide

/-- Hex decoding inverts hex encoding on byte lists. -/
theorem hexDecode_hexEncode :
    ∀ bs : List Nat, (∀ b ∈ bs, b < 256) → hexDecodeChars (hexEncode bs) = some bs := by
  intro bs
  induction bs with
  | nil => intro _; rfl
  | cons b rest ih =>
    intro h
    have hb : b < 256 := h b (List.mem_cons_self _ _)
    have h1 : hexDigitVal (hexDigitChar (b / 16)) = some (b / 16) :=
      hexDigitVal_hexDigitChar _ (by omega)
    have h2 : hexDigitVal (hexDigitChar (b % 16)) = some (b % 16) :=
      hexDigitVal_hexDigitChar _ (by omega)
    have h3 := ih (fun x hx => h x (List.mem_cons_of_mem _ hx))
    simp [hexEncode, hexDecodeChars, h1, h2, h3]
    omega

/-- Decoding inverts encoding on six-bit groups. -/
theorem b64Val_b64Char : ∀ n < 64, b64Val (b64Char n) = some n := by
  decide

/-- No alphabet character is the padding character. -/
theorem b64Char_ne_pad : ∀ n < 64, b64Char n ≠ '=' := by
  decide

/-- No output of `b64Char` is a newline character (out-of-range indices
produce the default `A`). -/
theorem b64Char_notCRLF : ∀ n : Nat, (b64Char n != '\r' && b64Char n != '\n') = true := by
  intro n
  rcases Nat.lt_or_ge n 64 with h | h
  · revert h
    revert n
    decide
  · have hd : b64Char n = 'A' := by
      unfold b64Char
      exact List.getD_eq_default _ _ (by exact le_trans (by decide) h)
    rw [hd]
    decide

/-- The ignore-newlines filter of the base64 decoder is the identity on
encoder output. -/
theorem filter_b64Encode :
    ∀ bs : List Nat,
      List.filter (fun c => c != '\r' && c != '\n') (b64Encode bs) = b64Encode bs := by
  intro bs
  induction bs using b64Encode.induct with
  | case1 => rfl
  | case2 b0 => simp [b64Encode, List.filter_cons, b64Char_notCRLF]
  | case3 b0 b1 => simp [b64Encode, List.filter_cons, b64Char_notCRLF]
  | case4 b0 b1 b2 rest ih => simp [b64Encode, List.filter_cons, b64Char_notCRLF, ih]

/-- Base64 quanta decoding inverts encoding on byte lists. -/
theorem b64DecodeQuanta_b64Encode :
    ∀ bs : List Nat, (∀ b ∈ bs, b < 256) → b64DecodeQuanta (b64Encode bs) = some bs := by
  intro bs
  induction bs using b64Encode.induct with
  | case1 => intro _; rfl
  | case2 b0 =>
    intro h
    have hb : b0 < 256 := h b0 (List.mem_cons_self _ _)
    have h0 : b64Val (b64Char (b0 / 4)) = some (b0 / 4) := b64Val_b64Char _ (by omega)
    have h1 : b64Val (b64Char (b0 % 4 * 16)) = some (b0 % 4 * 16) :=
      b64Val_b64Char _ (by omega)
    simp [b64Encode, b64DecodeQuanta, h0, h1]
    omega
  | case3 b0 b1 =>
    intro h
    have hb0 : b0 < 256 := h b0 (List.mem_cons_self _ _)
    have hb1 : b1 < 256 := h b1 (by simp)
    have h0 : b64Val (b64Char (b0 / 4)) = some (b0 / 4) := b64Val_b64Char _ (by omega)
    have h1 : b64Val (b64Char (b0 % 4 * 16 + b1 / 16)) = some (b0 % 4 * 16 + b1 / 16) :=
      b64Val_b64Char _ (by omega)
    have h2 : b64Val (b64Char (b1 % 16 * 4)) = some (b1 % 16 * 4) :=
      b64Val_b64Char _ (by omega)
    have hne : b64Char (b1 % 16 * 4) ≠ '=' := b64Char_ne_pad _ (by omega)
    simp [b64Encode, b64DecodeQuanta, h0, h1, h2, hne]
    omega
  | case4 b0 b1 b2 rest ih =>
    intro h
    have hb0 : b0 < 256 := h b0 (List.mem_cons_self _ _)
    have hb1 : b1 < 256 := h b1 (by simp)
    have hb2 : b2 < 256 := h b2 (by simp)
    have h0 : b64Val (b64Char (b0 / 4)) = some (b0 / 4) := b64Val_b64Char _ (by omega)
    have h1 : b64Val (b64Char (b0 % 4 * 16 + b1 / 16)) = some (b0 % 4 * 16 + b1 / 16) :=
      b64Val_b64Char _ (by omega)
    have h2 : b64Val (b64Char (b1 % 16 * 4 + b2 / 64)) = some (b1 % 16 * 4 + b2 / 64) :=
      b64Val_b64Char _ (by omega)
    have h3 : b64Val (b64Char (b2 % 64)) = some (b2 % 64) := b64Val_b64Char _ (by omega)
    have hne2 : b64Char (b1 % 16 * 4 + b2 / 64) ≠ '=' := b64Char_ne_pad _ (by omega)
    have hne3 : b64Char (b2 % 64) ≠ '=' := b64Char_ne_pad _ (by omega)
    have hrest := ih (fun x hx => h x (by simp [hx]))
    simp [b64Encode, b64DecodeQuanta, h0, h1, h2, h3, hne2, hne3, hrest]
    omega

/-- Base64 decoding inverts base64 encoding on byte lists. -/
theorem b64Decode_b64Encode :
    ∀ bs : List Nat, (∀ b ∈ bs, b < 256) → b64Decode (b64Encode bs) = some bs := by
  intro bs h
  unfold b64Decode
  rw [filter_b64Encode, b64DecodeQuanta_b64Encode bs h]

/-- Claim C8: for every 32-byte value `b`, `DecodeDigest (hex b) hex = b`
and `DecodeDigest (base64 b) base64 = b`; every successful decode yields
exactly 32 bytes; and every input that the selected codec rejects, or
whose decoding is shorter or longer than 32 bytes, makes `DecodeDigest`
return an error (which the front-end surfaces as InvalidArgument). -/
theorem c8_digest_codec_roundtrip :
    (∀ bs : List Nat, (∀ b ∈ bs, b < 256) → bs.length = 32 →
      DecodeDigest (hexEncode bs) DigestEncoding.hex = Except.ok bs ∧
      DecodeDigest (b64Encode bs) DigestEncoding.base64 = Except.ok bs) ∧
    (∀ (cs : List Char) (enc : DigestEncoding) (bs : List Nat),
      DecodeDigest cs enc = Except.ok bs → bs.length = 32) ∧
    (∀ cs : List Char, hexDecodeChars cs = none →
      DecodeDigest cs DigestEncoding.hex = Except.error "invalid hex digest") ∧
    (∀ (cs : List Char) (bs : List Nat), hexDecodeChars cs = some bs → bs.length ≠ 32 →
      DecodeDigest cs DigestEncoding.hex = Except.error "digest must decode to 32 bytes") ∧
    (∀ cs : List Char, b64Decode cs = none →
      DecodeDigest cs DigestEncoding.base64 = Except.error "invalid base64 digest") ∧
    (∀ (cs : List Char) (bs : List Nat), b64Decode cs = some bs → bs.length ≠ 32 →
      DecodeDigest cs DigestEncoding.base64 = Except.error "digest must decode to 32 bytes") := by
  refine ⟨?_, ?_, ?_, ?_, ?_, ?_⟩
  · intro bs hb hlen
    constructor
    · simp [DecodeDigest, hexDecode_hexEncode bs hb, hlen]
    · simp [DecodeDigest, b64Decode_b64Encode bs hb, hlen]
  · intro cs enc bs h
    cases enc <;> simp only [DecodeDigest] at h
    · rcases hd : hexDecodeChars cs with _ | ds <;> simp only [hd] at h
      · simp at h
      · by_cases hl : ds.length = 32
        · rw [if_pos hl] at h
          injection h with h2
          subst h2
          exact hl
        · rw [if_neg hl] at h
          simp at h
    · rcases hd : b64Decode cs with _ | ds <;> simp only [hd] at h
      · simp at h
      · by_cases hl : ds.length = 32
        · rw [if_pos hl] at h
          injection h with h2
          subst h2
          exact hl
        · rw [if_neg hl] at h
          simp at h
  · intro cs h
    simp [DecodeDigest, h]
  · intro cs bs h hl
    simp [DecodeDigest, h, hl]
  · intro cs h
    simp [DecodeDigest, h]
  · intro cs bs h hl
    simp [DecodeDigest, h, hl]

/-- Witness for `c8_digest_codec_roundtrip` on the 32-byte value
`[0, 1, ..., 31]`, in both encodings. -/
theorem c8_digest_witness :
    DecodeDigest (hexEncode (List.range 32)) DigestEncoding.hex =
      Except.ok (List.range 32) ∧
    DecodeDigest (b64Encode (List.range 32)) DigestEncoding.base64 =
      Except.ok (List.range 32) :=
  c8_digest_codec_roundtrip.1 (List.range 32) (by decide) (by decide)

end Claims

end AegisSign
